import Mathlib

/-!
Verification of the baoba_project reporting core.

This file gives a shallow embedding of the metric-extraction and
period-comparison pipeline of the repository:

* `ProcessamentoMetricas.extrai_metricas` and its three verbatim copies
  (src/baoba_processamento_dados_geral.py, src/baoba_processamento_dados_por_monitoramento.py,
  src/data_proces_baoba_project.py, src/data_process_baoba_project.py),
* `ProcessamentoMetricas.calcula_interacoes` and `MetricsProcessor.process_service`,
* `ComparadorMonitoramentoPoPeriodo.calcular_diferencas` and `preparar_longos`
  (src/baoba_compara_monitoramentos_por_periodo.py).

Python dynamic values are modelled by `PyVal`; Python exceptions by `Except PyErr`;
IEEE floats produced by the pandas percentage division are modelled by `PyFloat`,
which represents finite float values as exact rationals (rounding is not modelled;
no verified property depends on it) and carries the infinities and NaN that the
numpy division by zero produces.  `json.loads` is modelled by an executable
recursive-descent JSON parser (`json_loads`), including the Python-specific
acceptance of NaN and Infinity literals; parse failure stands for the
JSONDecodeError that the source catches.  Python dataframes enter the model as
lists of rows; column-wise pandas operations are modelled row-wise, which is
extensionally the same for the element-wise operations used by the source.
-/

/-- Model of a Python float value: finite values as exact rationals, plus the
infinities and NaN produced by numpy division by zero. -/
inductive PyFloat where
  | rat (q : Rat)
  | inf
  | negInf
  | nan
deriving DecidableEq

/-- The Python exception classes that the modelled code can raise. -/
inductive PyErr where
  | typeError
  | valueError
  | overflowError
  | attributeError
  | keyError
deriving DecidableEq

/-- Model of a Python runtime value, covering everything `json.loads` can return
plus the dynamic values the extractor branches on.  A `dict` is an association
list in insertion order; dicts built by the model never hold a key twice, and a
`PyVal.dict` given as input stands for a Python dict, whose keys are unique. -/
inductive PyVal where
  | none
  | bool (b : Bool)
  | int (n : Int)
  | float (f : PyFloat)
  | str (s : String)
  | list (xs : List PyVal)
  | dict (d : List (String × PyVal))

/-- First-match association-list lookup, the lookup of a Python dict whose keys
are unique. -/
def dictGet {α : Type} : List (String × α) → String → Option α
  | [], _ => Option.none
  | (k, v) :: d, key => if k = key then Option.some v else dictGet d key

/-- Lookup with a default, as in Python `d.get(key, dflt)`. -/
def dictGetD {α : Type} (d : List (String × α)) (key : String) (dflt : α) : α :=
  (dictGet d key).getD dflt

/-- Whether a key is present. -/
def hasKey {α : Type} (d : List (String × α)) (k : String) : Bool :=
  (dictGet d k).isSome

/-- Python dict assignment `d[k] = v`: replace the value at an existing key in
place, otherwise append the new pair at the end (insertion order). -/
def dictInsert {α : Type} : List (String × α) → String → α → List (String × α)
  | [], k, v => [(k, v)]
  | (k0, v0) :: d, k, v =>
    if k0 = k then (k0, v) :: d else (k0, v0) :: dictInsert d k v

/-- The opening-brace character. -/
def lbrace : Char := Char.ofNat 123

/-- The closing-brace character. -/
def rbrace : Char := Char.ofNat 125

/-- The double-quote character. -/
def dquote : Char := Char.ofNat 34

/-- The backslash character. -/
def bslash : Char := Char.ofNat 92

/-- JSON insignificant whitespace. -/
def isJsonWs (c : Char) : Bool :=
  c = ' ' ∨ c = Char.ofNat 9 ∨ c = Char.ofNat 10 ∨ c = Char.ofNat 13

/-- Drop leading JSON whitespace. -/
def skipWs : List Char → List Char
  | [] => []
  | c :: cs => if isJsonWs c then skipWs cs else c :: cs

/-- Value of a hexadecimal digit. -/
def hexVal (c : Char) : Option Nat :=
  if c.isDigit then Option.some (c.toNat - 48)
  else if 'a' ≤ c ∧ c ≤ 'f' then Option.some (c.toNat - 87)
  else if 'A' ≤ c ∧ c ≤ 'F' then Option.some (c.toNat - 55)
  else Option.none

/-- Single-character JSON escape codes. -/
def escChar (c : Char) : Option Char :=
  if c = dquote then Option.some dquote
  else if c = bslash then Option.some bslash
  else if c = '/' then Option.some '/'
  else if c = 'b' then Option.some (Char.ofNat 8)
  else if c = 'f' then Option.some (Char.ofNat 12)
  else if c = 'n' then Option.some (Char.ofNat 10)
  else if c = 'r' then Option.some (Char.ofNat 13)
  else if c = 't' then Option.some (Char.ofNat 9)
  else Option.none

/-- Parse the body of a JSON string literal (the opening quote already
consumed), returning the decoded characters and the rest of the input.  As in
Python json strict mode, unescaped control characters are rejected. -/
def parseJStrChars : List Char → Option (List Char × List Char)
  | [] => Option.none
  | c :: cs =>
    if c = dquote then Option.some ([], cs)
    else if c = bslash then
      match cs with
      | 'u' :: h1 :: h2 :: h3 :: h4 :: rest =>
        match hexVal h1, hexVal h2, hexVal h3, hexVal h4 with
        | Option.some a, Option.some b, Option.some c3, Option.some d =>
          match parseJStrChars rest with
          | Option.some (s, r) =>
            Option.some (Char.ofNat (((a * 16 + b) * 16 + c3) * 16 + d) :: s, r)
          | Option.none => Option.none
        | _, _, _, _ => Option.none
      | e :: rest =>
        match escChar e with
        | Option.some ch =>
          match parseJStrChars rest with
          | Option.some (s, r) => Option.some (ch :: s, r)
          | Option.none => Option.none
        | Option.none => Option.none
      | [] => Option.none
    else if c.toNat < 32 then Option.none
    else
      match parseJStrChars cs with
      | Option.some (s, r) => Option.some (c :: s, r)
      | Option.none => Option.none

/-- Take a maximal run of decimal digits. -/
def takeDigits : List Char → List Nat × List Char
  | [] => ([], [])
  | c :: cs =>
    if c.isDigit then
      match takeDigits cs with
      | (ds, r) => ((c.toNat - 48) :: ds, r)
    else ([], c :: cs)

/-- Decimal value of a digit list. -/
def natOfDigits (ds : List Nat) : Nat := ds.foldl (fun a d => a * 10 + d) 0

/-- Parse an optional JSON fraction part; `Option.none` in the first component
means no fraction was present. -/
def parseFrac : List Char → Option (Option (List Nat) × List Char)
  | '.' :: rest =>
    match takeDigits rest with
    | ([], _) => Option.none
    | (ds, r) => Option.some (Option.some ds, r)
  | cs => Option.some (Option.none, cs)

/-- Parse an optional JSON exponent part; `Option.none` in the first component
means no exponent was present. -/
def parseExp : List Char → Option (Option Int × List Char)
  | c :: rest =>
    if c = 'e' ∨ c = 'E' then
      match rest with
      | '+' :: r2 =>
        (match takeDigits r2 with
         | ([], _) => Option.none
         | (ds, r) => Option.some (Option.some ((natOfDigits ds : Int)), r))
      | '-' :: r2 =>
        (match takeDigits r2 with
         | ([], _) => Option.none
         | (ds, r) => Option.some (Option.some (-((natOfDigits ds : Int))), r))
      | r2 =>
        (match takeDigits r2 with
         | ([], _) => Option.none
         | (ds, r) => Option.some (Option.some ((natOfDigits ds : Int)), r))
    else Option.some (Option.none, c :: rest)
  | [] => Option.some (Option.none, [])

/-- Parse a JSON number after an optional leading minus sign (already
consumed, reported through `neg`).  A number with fraction or exponent part
decodes to a Python float, otherwise to a Python int. -/
def parseNumber (neg : Bool) (cs : List Char) : Option (PyVal × List Char) :=
  match takeDigits cs with
  | ([], _) => Option.none
  | (ds, r1) =>
    if ds.length > 1 ∧ ds.headD 1 = 0 then Option.none
    else
      match parseFrac r1 with
      | Option.none => Option.none
      | Option.some (fracPart, r2) =>
        match parseExp r2 with
        | Option.none => Option.none
        | Option.some (expPart, r3) =>
          let n : Nat := natOfDigits ds
          match fracPart, expPart with
          | Option.none, Option.none =>
            Option.some (PyVal.int (if neg then -(n : Int) else (n : Int)), r3)
          | _, _ =>
            let base : Rat := (n : Rat) +
              (match fracPart with
               | Option.some fds => (natOfDigits fds : Rat) / ((10 : Rat) ^ fds.length)
               | Option.none => 0)
            let e : Int := expPart.getD 0
            let mag : Rat := base * ((10 : Rat) ^ e)
            Option.some (PyVal.float (PyFloat.rat (if neg then -mag else mag)), r3)

/-- A pending step of the JSON parser: a value, the members of an object, or
the items of an array. -/
inductive PTask where
  | val (cs : List Char)
  | members (cs : List Char) (acc : List (String × PyVal))
  | items (cs : List Char) (acc : List PyVal)

/-- Fuel-driven recursive-descent JSON parser.  Mirrors the grammar accepted by
Python `json.loads`: objects, arrays, strings, numbers, `true`, `false`,
`null`, and the Python extensions `NaN`, `Infinity`, `-Infinity`.  Objects with
a repeated key keep the last value, as Python dicts do. -/
def parseF : Nat → PTask → Option (PyVal × List Char)
  | 0, _ => Option.none
  | Nat.succ fuel, PTask.val cs =>
    (match skipWs cs with
     | [] => Option.none
     | c :: rest =>
       if c = lbrace then
         match skipWs rest with
         | c2 :: r2 =>
           if c2 = rbrace then Option.some (PyVal.dict [], r2)
           else parseF fuel (PTask.members (c2 :: r2) [])
         | [] => Option.none
       else if c = '[' then
         match skipWs rest with
         | c2 :: r2 =>
           if c2 = ']' then Option.some (PyVal.list [], r2)
           else parseF fuel (PTask.items (c2 :: r2) [])
         | [] => Option.none
       else if c = dquote then
         match parseJStrChars rest with
         | Option.some (s, r) => Option.some (PyVal.str (String.mk s), r)
         | Option.none => Option.none
       else
         match c :: rest with
         | 't' :: 'r' :: 'u' :: 'e' :: r => Option.some (PyVal.bool true, r)
         | 'f' :: 'a' :: 'l' :: 's' :: 'e' :: r => Option.some (PyVal.bool false, r)
         | 'n' :: 'u' :: 'l' :: 'l' :: r => Option.some (PyVal.none, r)
         | 'N' :: 'a' :: 'N' :: r => Option.some (PyVal.float PyFloat.nan, r)
         | 'I' :: 'n' :: 'f' :: 'i' :: 'n' :: 'i' :: 't' :: 'y' :: r =>
           Option.some (PyVal.float PyFloat.inf, r)
         | '-' :: 'I' :: 'n' :: 'f' :: 'i' :: 'n' :: 'i' :: 't' :: 'y' :: r =>
           Option.some (PyVal.float PyFloat.negInf, r)
         | '-' :: r => parseNumber true r
         | _ => parseNumber false (c :: rest))
  | Nat.succ fuel, PTask.members cs acc =>
    (match cs with
     | c :: rest =>
       if c = dquote then
         match parseJStrChars rest with
         | Option.some (kcs, r1) =>
           (match skipWs r1 with
            | ':' :: r2 =>
              (match parseF fuel (PTask.val r2) with
               | Option.some (v, r3) =>
                 let acc2 := dictInsert acc (String.mk kcs) v
                 (match skipWs r3 with
                  | ',' :: r4 =>
                    (match skipWs r4 with
                     | c5 :: r5 => parseF fuel (PTask.members (c5 :: r5) acc2)
                     | [] => Option.none)
                  | c4 :: r4 =>
                    if c4 = rbrace then Option.some (PyVal.dict acc2, r4) else Option.none
                  | [] => Option.none)
               | Option.none => Option.none)
            | _ => Option.none)
         | Option.none => Option.none
       else Option.none
     | [] => Option.none)
  | Nat.succ fuel, PTask.items cs acc =>
    (match parseF fuel (PTask.val cs) with
     | Option.some (v, r1) =>
       (match skipWs r1 with
        | ',' :: r2 => parseF fuel (PTask.items r2 (acc ++ [v]))
        | c2 :: r2 =>
          if c2 = ']' then Option.some (PyVal.list (acc ++ [v]), r2) else Option.none
        | [] => Option.none)
     | Option.none => Option.none)

/-- Model of Python `json.loads`: parse one JSON value and require only
whitespace after it.  `Option.none` stands for the JSONDecodeError that the
source code catches.  The fuel is ample: every two nested parser steps consume
at least one input character. -/
def json_loads (s : String) : Option PyVal :=
  match parseF (8 * s.length + 64) (PTask.val s.data) with
  | Option.some (v, rest) => if skipWs rest = [] then Option.some v else Option.none
  | Option.none => Option.none

/-- Whitespace stripped by Python `int()` on string arguments. -/
def isPySpace (c : Char) : Bool :=
  c = ' ' ∨ c = Char.ofNat 9 ∨ c = Char.ofNat 10 ∨ c = Char.ofNat 13 ∨
  c = Char.ofNat 11 ∨ c = Char.ofNat 12

/-- Model of Python `int(s)` on a string: strip whitespace, optional sign,
then a nonempty run of decimal digits.  (Numeric-literal underscores and
non-ASCII digits are not modelled.) -/
def intOfStr (s : String) : Option Int :=
  let cs := s.data.dropWhile isPySpace
  let cs := (cs.reverse.dropWhile isPySpace).reverse
  let core : List Char → Option Nat := fun l =>
    if l ≠ [] ∧ l.all Char.isDigit then
      Option.some (natOfDigits (l.map (fun c => c.toNat - 48)))
    else Option.none
  match cs with
  | '+' :: rest => (core rest).map (fun n => (n : Int))
  | '-' :: rest => (core rest).map (fun n => -(n : Int))
  | rest => (core rest).map (fun n => (n : Int))

/-- Truncation toward zero, as Python `int()` on a finite float. -/
def ratTrunc (q : Rat) : Int := q.num.tdiv (q.den : Int)

/-- Model of the Python builtin `int(v)` on the dynamic values of the model:
bools and ints convert, finite floats truncate, numeric strings parse,
NaN and infinities raise ValueError and OverflowError, and everything else
raises TypeError. -/
def pyInt : PyVal → Except PyErr Int
  | PyVal.bool b => Except.ok (if b then 1 else 0)
  | PyVal.int n => Except.ok n
  | PyVal.float (PyFloat.rat q) => Except.ok (ratTrunc q)
  | PyVal.float PyFloat.nan => Except.error PyErr.valueError
  | PyVal.float _ => Except.error PyErr.overflowError
  | PyVal.str s =>
    (match intOfStr s with
     | Option.some n => Except.ok n
     | Option.none => Except.error PyErr.valueError)
  | _ => Except.error PyErr.typeError

/-- Python `v.get(k, 0)`: dict lookup with default `0`; any non-dict receiver
raises AttributeError, as no other value decoded from JSON has a `get`
attribute. -/
def pyGet (v : PyVal) (k : String) : Except PyErr PyVal :=
  match v with
  | PyVal.dict d => Except.ok (dictGetD d k (PyVal.int 0))
  | _ => Except.error PyErr.attributeError

/-- One entry of the extraction comprehension: `int(v.get(k, 0))`. -/
def pyGetInt (v : PyVal) (k : String) : Except PyErr Int :=
  match pyGet v k with
  | Except.ok w => pyInt w
  | Except.error e => Except.error e

/-- The dict comprehension `(k : int(v.get(k, 0)) for k in keys)` of the
extractor, evaluated left to right over an accumulated dict, with the first
exception propagating. -/
def pyDictComp (v : PyVal) : List String → List (String × Int) → Except PyErr (List (String × Int))
  | [], d => Except.ok d
  | k :: ks, d =>
    match pyGetInt v k with
    | Except.error e => Except.error e
    | Except.ok n => pyDictComp v ks (dictInsert d k n)

/-- The zero-fill comprehension `(k : 0 for k in keys)`. -/
def zeroFill : List String → List (String × Int) → List (String × Int)
  | [], d => d
  | k :: ks, d => zeroFill ks (dictInsert d k 0)

/-- `ProcessamentoMetricas.extrai_metricas` from
src/baoba_processamento_dados_geral.py: a JSON string is decoded (decode
failure yields the zero map), a dict is used directly, any other value yields
the zero map, and finally `int(dados_dict.get(k, 0))` is taken for each
requested key. -/
def ProcessamentoMetricas.extrai_metricas (dados : PyVal) (keys : List String) :
    Except PyErr (List (String × Int)) :=
  match dados with
  | PyVal.str s =>
    (match json_loads s with
     | Option.some v => pyDictComp v keys []
     | Option.none => Except.ok (zeroFill keys []))
  | PyVal.dict d => pyDictComp (PyVal.dict d) keys []
  | _ => Except.ok (zeroFill keys [])

/-- `ProcessamentoMetricasPorMonitoramento.extrai_metricas` from
src/baoba_processamento_dados_por_monitoramento.py, a verbatim copy of the
extractor above. -/
def ProcessamentoMetricasPorMonitoramento.extrai_metricas (dados : PyVal) (keys : List String) :
    Except PyErr (List (String × Int)) :=
  match dados with
  | PyVal.str s =>
    (match json_loads s with
     | Option.some v => pyDictComp v keys []
     | Option.none => Except.ok (zeroFill keys []))
  | PyVal.dict d => pyDictComp (PyVal.dict d) keys []
  | _ => Except.ok (zeroFill keys [])

/-- `MetricsProcessor.extract_metrics` from src/data_proces_baoba_project.py,
a verbatim copy of the extractor above. -/
def DataProces.MetricsProcessor.extract_metrics (dados : PyVal) (keys : List String) :
    Except PyErr (List (String × Int)) :=
  match dados with
  | PyVal.str s =>
    (match json_loads s with
     | Option.some v => pyDictComp v keys []
     | Option.none => Except.ok (zeroFill keys []))
  | PyVal.dict d => pyDictComp (PyVal.dict d) keys []
  | _ => Except.ok (zeroFill keys [])

/-- `MetricsProcessor.extract_metrics` from src/data_process_baoba_project.py,
a verbatim copy of the extractor above. -/
def DataProcess.MetricsProcessor.extract_metrics (dados : PyVal) (keys : List String) :
    Except PyErr (List (String × Int)) :=
  match dados with
  | PyVal.str s =>
    (match json_loads s with
     | Option.some v => pyDictComp v keys []
     | Option.none => Except.ok (zeroFill keys []))
  | PyVal.dict d => pyDictComp (PyVal.dict d) keys []
  | _ => Except.ok (zeroFill keys [])

/-- One input record of the per-service aggregation: the service column
`servico.keyword` and the raw metrics column `manifestacoes_detalhadas.keyword`.
Other columns play no role in the aggregation. -/
structure SrcRow where
  servico : String
  manifestacoes : PyVal

/-- One output record: the input columns, the per-key metric columns added by
the loop over `keys`, and the `interacoes_calculadas` total. -/
structure OutRow where
  servico : String
  manifestacoes : PyVal
  metricCols : List (String × Int)
  interacoes_calculadas : Int

/-- Effectful map over a list, propagating the first exception, as pandas
`apply` does row by row. -/
def exceptMapM {α β : Type} (f : α → Except PyErr β) : List α → Except PyErr (List β)
  | [] => Except.ok []
  | x :: xs =>
    match f x with
    | Except.error e => Except.error e
    | Except.ok y =>
      match exceptMapM f xs with
      | Except.error e => Except.error e
      | Except.ok ys => Except.ok (y :: ys)

/-- The column loop `for k in keys: df[k] = metrics.get(k, 0)` for one row:
each key occurrence stores the extracted value (repeats overwrite). -/
def buildCols (m : List (String × Int)) : List String → List (String × Int) → List (String × Int)
  | [], d => d
  | k :: ks, d => buildCols m ks (dictInsert d k (dictGetD m k 0))

/-- The row total `df[keys].sum(axis=1)`: the per-key columns selected once per
occurrence in `keys` and summed. -/
def rowTotal (cols : List (String × Int)) (keys : List String) : Int :=
  (keys.map (fun k => dictGetD cols k 0)).sum

/-- `ProcessamentoMetricas.calcula_interacoes` from
src/baoba_processamento_dados_geral.py: filter the rows of the requested
service, extract the metrics dict per row (`temp_metrics`, later dropped),
materialise one column per requested key via `metrics.get(k, 0)`, and sum the
key columns into `interacoes_calculadas`. -/
def ProcessamentoMetricas.calcula_interacoes
    (df : List SrcRow) (service : String) (keys : List String) :
    Except PyErr (List OutRow) :=
  exceptMapM
    (fun r =>
      match ProcessamentoMetricas.extrai_metricas r.manifestacoes keys with
      | Except.error e => Except.error e
      | Except.ok m =>
        let cols := buildCols m keys []
        Except.ok { servico := r.servico, manifestacoes := r.manifestacoes,
                    metricCols := cols, interacoes_calculadas := rowTotal cols keys })
    (df.filter (fun r => r.servico == service))

/-- The column loop of `MetricsProcessor.process_service`: for each key
occurrence the source re-runs `extract_metrics(x, keys)` and indexes the result
directly with `[k]`, which raises KeyError when the key is absent. -/
def DataProcess.MetricsProcessor.colsPS (raw : PyVal) (keys : List String) :
    List String → List (String × Int) → Except PyErr (List (String × Int))
  | [], d => Except.ok d
  | k :: ks, d =>
    match DataProcess.MetricsProcessor.extract_metrics raw keys with
    | Except.error e => Except.error e
    | Except.ok m =>
      match dictGet m k with
      | Option.some v => DataProcess.MetricsProcessor.colsPS raw keys ks (dictInsert d k v)
      | Option.none => Except.error PyErr.keyError

/-- `MetricsProcessor.process_service` from src/data_process_baoba_project.py:
filter the rows of the requested service, build one column per requested key by
extracting and indexing per key, and sum the key columns into
`interacoes_calculadas`. -/
def DataProcess.MetricsProcessor.process_service
    (df : List SrcRow) (service : String) (keys : List String) :
    Except PyErr (List OutRow) :=
  exceptMapM
    (fun r =>
      match DataProcess.MetricsProcessor.colsPS r.manifestacoes keys keys [] with
      | Except.error e => Except.error e
      | Except.ok cols =>
        Except.ok { servico := r.servico, manifestacoes := r.manifestacoes,
                    metricCols := cols, interacoes_calculadas := rowTotal cols keys })
    (df.filter (fun r => r.servico == service))

namespace ComparadorMonitoramentoPoPeriodo

/-- One row of an aggregated period snapshot, after the renames done in
`__init__`: the topic key `monitoramento_nome.keyword` plus the
`total_ocorrencias` and `total_interacoes` counts of the period. -/
structure SnapRow where
  topic : String
  occ : Int
  inter : Int
deriving DecidableEq

/-- One row of `df_merged`: the joined per-period columns and the derived
difference and percentage columns. -/
structure MergedRow where
  topic : String
  occAtual : Int
  occAnterior : Int
  interAtual : Int
  interAnterior : Int
  diffOcc : Int
  diffInter : Int
  percOcc : PyFloat
  percInter : PyFloat
deriving DecidableEq

/-- The numpy true division of two integer columns, as pandas performs it on
`diff / anterior`: division by zero yields signed infinity, and zero by zero
yields NaN, instead of raising. -/
def floatDivZ (a b : Int) : PyFloat :=
  if b = 0 then (if 0 < a then PyFloat.inf else if a < 0 then PyFloat.negInf else PyFloat.nan)
  else PyFloat.rat ((a : Rat) / (b : Rat))

/-- Multiplication of the division result by the scalar 100. -/
def mul100 : PyFloat → PyFloat
  | PyFloat.rat q => PyFloat.rat (q * 100)
  | PyFloat.inf => PyFloat.inf
  | PyFloat.negInf => PyFloat.negInf
  | PyFloat.nan => PyFloat.nan

/-- One joined row of the merge together with the four derived columns added by
`calcular_diferencas` (the column operations of the source applied row-wise). -/
def mkMergedRow (c p : SnapRow) : MergedRow :=
  { topic := c.topic
    occAtual := c.occ
    occAnterior := p.occ
    interAtual := c.inter
    interAnterior := p.inter
    diffOcc := c.occ - p.occ
    diffInter := c.inter - p.inter
    percOcc := mul100 (floatDivZ (c.occ - p.occ) p.occ)
    percInter := mul100 (floatDivZ (c.inter - p.inter) p.inter) }

/-- `calcular_diferencas`: the inner merge of the two snapshots on the topic
key (left row order outside, right row order inside, as pandas produces it),
with the difference and percentage columns computed on every joined row. -/
def calcular_diferencas : List SnapRow → List SnapRow → List MergedRow
  | [], _ => []
  | c :: rest, anterior =>
    ((anterior.filter (fun p => p.topic == c.topic)).map (mkMergedRow c))
      ++ calcular_diferencas rest anterior

/-- One row of a long-form (melted) table: the id columns kept by the melt,
the period label `Semana`, and the period value. -/
structure LongRow where
  topic : String
  diff : Int
  perc : PyFloat
  semana : String
  valor : Int
deriving DecidableEq

/-- The occurrences half of `preparar_longos`: melt the merged table on the two
period-value columns (pandas emits all rows of the first value column, then all
rows of the second) and relabel them `Atual` / `Anterior`. -/
def preparar_longos_occ (m : List MergedRow) : List LongRow :=
  (m.map (fun r =>
    { topic := r.topic, diff := r.diffOcc, perc := r.percOcc,
      semana := "Atual", valor := r.occAtual }))
  ++ (m.map (fun r =>
    { topic := r.topic, diff := r.diffOcc, perc := r.percOcc,
      semana := "Anterior", valor := r.occAnterior }))

/-- The interactions half of `preparar_longos`, built the same way from the
interaction columns. -/
def preparar_longos_int (m : List MergedRow) : List LongRow :=
  (m.map (fun r =>
    { topic := r.topic, diff := r.diffInter, perc := r.percInter,
      semana := "Atual", valor := r.interAtual }))
  ++ (m.map (fun r =>
    { topic := r.topic, diff := r.diffInter, perc := r.percInter,
      semana := "Anterior", valor := r.interAnterior }))

end ComparadorMonitoramentoPoPeriodo

/-- Whether an `Except` result is a normal return. -/
def exOk {α : Type} : Except PyErr α → Bool
  | Except.ok _ => true
  | Except.error _ => false

lemma dictGet_dictInsert {α : Type} (d : List (String × α)) (k0 k : String) (v : α) :
    dictGet (dictInsert d k0 v) k = if k0 = k then Option.some v else dictGet d k := by
  induction d with
  | nil => simp [dictInsert, dictGet]
  | cons p d ih =>
    obtain ⟨k1, v1⟩ := p
    by_cases h1 : k1 = k0
    · subst h1
      by_cases h2 : k1 = k <;> simp [dictInsert, dictGet, h2]
    · by_cases h2 : k1 = k
      · subst h2
        have hk : ¬ k0 = k1 := fun h => h1 h.symm
        simp [dictInsert, dictGet, h1, hk]
      · simp [dictInsert, dictGet, h1, h2, ih]

lemma hasKey_dictInsert {α : Type} (d : List (String × α)) (k0 k : String) (v : α) :
    hasKey (dictInsert d k0 v) k = true ↔ k0 = k ∨ hasKey d k = true := by
  by_cases h : k0 = k <;> simp [hasKey, dictGet_dictInsert, h]

lemma mem_dictInsert {α : Type} (d : List (String × α)) (k : String) (v : α)
    (p : String × α) : p ∈ dictInsert d k v → p ∈ d ∨ p = (k, v) := by
  induction d with
  | nil =>
    intro h
    right
    simpa [dictInsert] using h
  | cons q d ih =>
    obtain ⟨k1, v1⟩ := q
    intro h
    by_cases h1 : k1 = k
    · subst h1
      simp [dictInsert, List.mem_cons] at h
      rcases h with h | h
      · right; exact h
      · left; exact List.mem_cons_of_mem _ h
    · simp only [dictInsert, if_neg h1, List.mem_cons] at h
      rcases h with h | h
      · left
        rw [h]
        exact List.mem_cons_self _ _
      · rcases ih h with h2 | h2
        · left; exact List.mem_cons_of_mem _ h2
        · right; exact h2

lemma dictInsert_of_not_hasKey {α : Type} (d : List (String × α)) (k : String) (v : α) :
    hasKey d k = false → dictInsert d k v = d ++ [(k, v)] := by
  induction d with
  | nil => intro _; simp [dictInsert]
  | cons q d ih =>
    obtain ⟨k1, v1⟩ := q
    intro h
    by_cases h1 : k1 = k
    · simp [hasKey, dictGet, h1] at h
    · simp only [dictInsert, if_neg h1, List.cons_append, List.cons.injEq, true_and]
      apply ih
      simpa [hasKey, dictGet, h1] using h

lemma dictGet_append {α : Type} (d1 d2 : List (String × α)) (k : String) :
    dictGet (d1 ++ d2) k =
      match dictGet d1 k with
      | Option.some v => Option.some v
      | Option.none => dictGet d2 k := by
  induction d1 with
  | nil => simp [dictGet]
  | cons q d ih =>
    obtain ⟨k1, v1⟩ := q
    by_cases h1 : k1 = k <;> simp [dictGet, h1, ih]

lemma hasKey_append {α : Type} (d1 d2 : List (String × α)) (k : String) :
    hasKey (d1 ++ d2) k = (hasKey d1 k || hasKey d2 k) := by
  simp only [hasKey, dictGet_append]
  cases dictGet d1 k <;> simp

lemma zeroFill_hasKey (ks : List String) (d : List (String × Int)) (k : String) :
    hasKey (zeroFill ks d) k = true ↔ hasKey d k = true ∨ k ∈ ks := by
  induction ks generalizing d with
  | nil => simp [zeroFill]
  | cons k0 ks ih =>
    simp only [zeroFill, ih, hasKey_dictInsert, List.mem_cons]
    constructor
    · rintro ((h | h) | h)
      · exact Or.inr (Or.inl h.symm)
      · exact Or.inl h
      · exact Or.inr (Or.inr h)
    · rintro (h | h | h)
      · exact Or.inl (Or.inr h)
      · exact Or.inl (Or.inl h.symm)
      · exact Or.inr h

lemma zeroFill_mem (ks : List String) : ∀ (d : List (String × Int)) (p : String × Int),
    p ∈ zeroFill ks d → p ∈ d ∨ p.2 = 0 := by
  induction ks with
  | nil => intro d p h; exact Or.inl h
  | cons k0 ks ih =>
    intro d p h
    rcases ih _ p h with h2 | h2
    · rcases mem_dictInsert _ _ _ _ h2 with h3 | h3
      · exact Or.inl h3
      · right; rw [h3]
    · exact Or.inr h2

lemma zeroFill_eq_append (ks : List String) (hnd : ks.Nodup) :
    ∀ (d : List (String × Int)), (∀ k ∈ ks, hasKey d k = false) →
    zeroFill ks d = d ++ ks.map (fun k => (k, 0)) := by
  induction ks with
  | nil => intro d _; simp [zeroFill]
  | cons k0 ks ih =>
    intro d hdisj
    simp only [List.nodup_cons] at hnd
    have h0 : hasKey d k0 = false := hdisj k0 (List.mem_cons_self _ _)
    have step : dictInsert d k0 0 = d ++ [(k0, 0)] := dictInsert_of_not_hasKey _ _ 0 h0
    have hdisj2 : ∀ k ∈ ks, hasKey (d ++ [(k0, 0)]) k = false := by
      intro k hk
      have hne : ¬ k0 = k := fun h => hnd.1 (h ▸ hk)
      rw [hasKey_append, hdisj k (List.mem_cons_of_mem _ hk)]
      simp [hasKey, dictGet, hne]
    rw [zeroFill, step, ih hnd.2 (d ++ [(k0, 0)]) hdisj2]
    simp

lemma pyDictComp_lookup (v : PyVal) (ks : List String) :
    ∀ (d m : List (String × Int)), pyDictComp v ks d = Except.ok m →
    ∀ k : String,
      (k ∈ ks → ∃ n : Int, pyGetInt v k = Except.ok n ∧ dictGet m k = Option.some n) ∧
      (k ∉ ks → dictGet m k = dictGet d k) := by
  induction ks with
  | nil =>
    intro d m h k
    simp only [pyDictComp, Except.ok.injEq] at h
    subst h
    exact ⟨by simp, fun _ => rfl⟩
  | cons k0 ks ih =>
    intro d m h k
    simp only [pyDictComp] at h
    cases hg : pyGetInt v k0 with
    | error e => rw [hg] at h; exact absurd h (by simp)
    | ok n0 =>
      rw [hg] at h
      have ihm := ih (dictInsert d k0 n0) m h
      constructor
      · intro hk
        rcases List.mem_cons.mp hk with hk0 | hks
        · by_cases hks2 : k ∈ ks
          · exact (ihm k).1 hks2
          · refine ⟨n0, ?_, ?_⟩
            · rw [hk0]; exact hg
            · rw [(ihm k).2 hks2, dictGet_dictInsert, if_pos hk0.symm]
        · exact (ihm k).1 hks
      · intro hk
        have hk0 : ¬ k0 = k := fun h2 => hk (h2 ▸ List.mem_cons_self _ _)
        have hks : k ∉ ks := fun h2 => hk (List.mem_cons_of_mem _ h2)
        rw [(ihm k).2 hks, dictGet_dictInsert, if_neg hk0]

lemma pyDictComp_hasKey (v : PyVal) (ks : List String) (d m : List (String × Int))
    (h : pyDictComp v ks d = Except.ok m) (k : String) :
    hasKey m k = true ↔ hasKey d k = true ∨ k ∈ ks := by
  by_cases hk : k ∈ ks
  · obtain ⟨n, _, hget⟩ := (pyDictComp_lookup v ks d m h k).1 hk
    simp [hasKey, hget, hk]
  · rw [hasKey, (pyDictComp_lookup v ks d m h k).2 hk]
    simp [hasKey, hk]

lemma pyDictComp_mem (v : PyVal) (ks : List String) :
    ∀ (d m : List (String × Int)), pyDictComp v ks d = Except.ok m →
    ∀ p ∈ m, p ∈ d ∨ pyGetInt v p.1 = Except.ok p.2 := by
  induction ks with
  | nil =>
    intro d m h p hp
    simp only [pyDictComp, Except.ok.injEq] at h
    subst h
    exact Or.inl hp
  | cons k0 ks ih =>
    intro d m h p hp
    simp only [pyDictComp] at h
    cases hg : pyGetInt v k0 with
    | error e => rw [hg] at h; exact absurd h (by simp)
    | ok n0 =>
      rw [hg] at h
      rcases ih (dictInsert d k0 n0) m h p hp with h2 | h2
      · rcases mem_dictInsert _ _ _ _ h2 with h3 | h3
        · exact Or.inl h3
        · right
          rw [h3]
          exact hg
      · exact Or.inr h2

lemma pyDictComp_isOk (v : PyVal) (ks : List String) :
    ∀ d : List (String × Int),
    exOk (pyDictComp v ks d) = true ↔ ∀ k ∈ ks, exOk (pyGetInt v k) = true := by
  induction ks with
  | nil => intro d; simp [pyDictComp, exOk]
  | cons k0 ks ih =>
    intro d
    simp only [pyDictComp]
    cases hg : pyGetInt v k0 with
    | error e =>
      simp only [exOk, List.mem_cons]
      constructor
      · intro h; exact absurd h (by simp)
      · intro h
        have := h k0 (Or.inl rfl)
        rw [hg] at this
        exact absurd this (by simp [exOk])
    | ok n0 =>
      rw [ih (dictInsert d k0 n0)]
      simp only [List.mem_cons]
      constructor
      · intro h k hk
        rcases hk with hk | hk
        · rw [hk, hg]; rfl
        · exact h k hk
      · intro h k hk
        exact h k (Or.inr hk)

lemma pyDictComp_keyList (v : PyVal) (ks : List String) (hnd : ks.Nodup) :
    ∀ (d m : List (String × Int)), (∀ k ∈ ks, hasKey d k = false) →
    pyDictComp v ks d = Except.ok m →
    m.map Prod.fst = d.map Prod.fst ++ ks := by
  induction ks with
  | nil =>
    intro d m _ h
    simp only [pyDictComp, Except.ok.injEq] at h
    subst h
    simp
  | cons k0 ks ih =>
    intro d m hdisj h
    simp only [List.nodup_cons] at hnd
    simp only [pyDictComp] at h
    cases hg : pyGetInt v k0 with
    | error e => rw [hg] at h; exact absurd h (by simp)
    | ok n0 =>
      rw [hg] at h
      have h0 : hasKey d k0 = false := hdisj k0 (List.mem_cons_self _ _)
      have step : dictInsert d k0 n0 = d ++ [(k0, n0)] := dictInsert_of_not_hasKey _ _ _ h0
      have hdisj2 : ∀ k ∈ ks, hasKey (d ++ [(k0, n0)]) k = false := by
        intro k hk
        have hne : ¬ k0 = k := fun h2 => hnd.1 (h2 ▸ hk)
        rw [hasKey_append, hdisj k (List.mem_cons_of_mem _ hk)]
        simp [hasKey, dictGet, hne]
      have hdisj3 : ∀ k ∈ ks, hasKey (dictInsert d k0 n0) k = false := by
        intro k hk
        rw [step]
        exact hdisj2 k hk
      have hml := ih hnd.2 (dictInsert d k0 n0) m hdisj3 h
      rw [hml, step]
      simp

lemma exceptMapM_mem {α β : Type} (f : α → Except PyErr β) :
    ∀ (l : List α) (out : List β), exceptMapM f l = Except.ok out →
    ∀ y ∈ out, ∃ x ∈ l, f x = Except.ok y := by
  intro l
  induction l with
  | nil =>
    intro out h y hy
    simp only [exceptMapM, Except.ok.injEq] at h
    subst h
    exact absurd hy (by simp)
  | cons x xs ih =>
    intro out h y hy
    simp only [exceptMapM] at h
    cases hf : f x with
    | error e => rw [hf] at h; exact absurd h (by simp)
    | ok y0 =>
      rw [hf] at h
      cases hrec : exceptMapM f xs with
      | error e => rw [hrec] at h; exact absurd h (by simp)
      | ok ys =>
        rw [hrec] at h
        simp only [Except.ok.injEq] at h
        subst h
        rcases List.mem_cons.mp hy with hy0 | hys
        · exact ⟨x, List.mem_cons_self _ _, hy0 ▸ hf⟩
        · obtain ⟨x2, hx2, hfx2⟩ := ih ys hrec y hys
          exact ⟨x2, List.mem_cons_of_mem _ hx2, hfx2⟩

lemma exOk_exists {α : Type} (e : Except PyErr α) (h : exOk e = true) :
    ∃ a : α, e = Except.ok a := by
  cases e with
  | ok a => exact ⟨a, rfl⟩
  | error e => exact absurd h (by simp [exOk])

/-- Whether a value is a Python dict. -/
def isDictVal : PyVal → Bool
  | PyVal.dict _ => true
  | _ => false

/-- Whether a value is neither a string nor a dict (the final `else` branch of
the extractor). -/
def notStrOrDict : PyVal → Bool
  | PyVal.str _ => false
  | PyVal.dict _ => false
  | _ => true

lemma pyGetInt_nondict (v : PyVal) (hv : isDictVal v = false) (k : String) :
    pyGetInt v k = Except.error PyErr.attributeError := by
  cases v with
  | dict d => simp [isDictVal] at hv
  | none => rfl
  | bool b => rfl
  | int n => rfl
  | float f => rfl
  | str s => rfl
  | list xs => rfl

lemma hasKey_of_mem {α : Type} (d : List (String × α)) (p : String × α)
    (h : p ∈ d) : hasKey d p.1 = true := by
  induction d with
  | nil => exact absurd h (by simp)
  | cons q d ih =>
    rcases List.mem_cons.mp h with h1 | h1
    · subst h1
      simp [hasKey, dictGet]
    · by_cases h2 : q.1 = p.1
      · simp [hasKey, dictGet, h2]
      · simpa [hasKey, dictGet, h2] using ih h1

/-- C2: whenever the extractor returns normally, the key set of the returned
mapping is exactly the set of requested keys — every requested key is present
and no other key is, whatever the raw input was. -/
theorem extrai_metricas_keyset (dados : PyVal) (keys : List String)
    (m : List (String × Int))
    (h : ProcessamentoMetricas.extrai_metricas dados keys = Except.ok m)
    (k : String) :
    hasKey m k = true ↔ k ∈ keys := by
  have hnil : hasKey ([] : List (String × Int)) k = false := rfl
  cases dados with
  | str s =>
    cases hj : json_loads s with
    | some v =>
      simp only [ProcessamentoMetricas.extrai_metricas, hj] at h
      rw [pyDictComp_hasKey v keys [] m h k, hnil]
      simp
    | none =>
      simp only [ProcessamentoMetricas.extrai_metricas, hj, Except.ok.injEq] at h
      subst h
      rw [zeroFill_hasKey, hnil]
      simp
  | dict d =>
    simp only [ProcessamentoMetricas.extrai_metricas] at h
    rw [pyDictComp_hasKey _ keys [] m h k, hnil]
    simp
  | none =>
    simp only [ProcessamentoMetricas.extrai_metricas, Except.ok.injEq] at h
    subst h
    rw [zeroFill_hasKey, hnil]
    simp
  | bool b =>
    simp only [ProcessamentoMetricas.extrai_metricas, Except.ok.injEq] at h
    subst h
    rw [zeroFill_hasKey, hnil]
    simp
  | int n =>
    simp only [ProcessamentoMetricas.extrai_metricas, Except.ok.injEq] at h
    subst h
    rw [zeroFill_hasKey, hnil]
    simp
  | float f =>
    simp only [ProcessamentoMetricas.extrai_metricas, Except.ok.injEq] at h
    subst h
    rw [zeroFill_hasKey, hnil]
    simp
  | list xs =>
    simp only [ProcessamentoMetricas.extrai_metricas, Except.ok.injEq] at h
    subst h
    rw [zeroFill_hasKey, hnil]
    simp

/-- C2 witness: a concrete run of the key-set theorem, on a native dict where
key `b` is requested but absent from the payload. -/
theorem extrai_metricas_keyset_witness :
    hasKey [("a", (3 : Int)), ("b", 0)] "b" = true ↔ "b" ∈ ["a", "b"] :=
  extrai_metricas_keyset (PyVal.dict [("a", PyVal.int 3)]) ["a", "b"]
    [("a", 3), ("b", 0)] (by rfl) "b"

/-- C3 counterexample: a string that is valid JSON but not a JSON object is not
zero-filled — the code reaches `dados_dict.get` on a non-dict decode result and
raises AttributeError instead of returning the zero map. -/
theorem extrai_metricas_nonobject_string_raises :
    ProcessamentoMetricas.extrai_metricas (PyVal.str ("42")) ["a"]
      = Except.error PyErr.attributeError ∧
    json_loads ("42") = Option.some (PyVal.int 42) :=
  ⟨rfl, rfl⟩

/-- C3 amended: the zero map is returned exactly on JSON decode failure
(the caught JSONDecodeError) and on raw values that are neither string nor
mapping; a string that decodes to a non-object JSON value instead raises
AttributeError (unless the key list is empty, in which case the comprehension
returns the empty mapping without touching the payload). -/
theorem extrai_metricas_zero_fill (keys : List String) :
    (∀ s : String, json_loads s = Option.none →
      ProcessamentoMetricas.extrai_metricas (PyVal.str s) keys
        = Except.ok (zeroFill keys [])) ∧
    (∀ raw : PyVal, notStrOrDict raw = true →
      ProcessamentoMetricas.extrai_metricas raw keys
        = Except.ok (zeroFill keys [])) ∧
    (∀ (s : String) (v : PyVal), json_loads s = Option.some v →
      isDictVal v = false → keys ≠ [] →
      ProcessamentoMetricas.extrai_metricas (PyVal.str s) keys
        = Except.error PyErr.attributeError) := by
  refine ⟨?_, ?_, ?_⟩
  · intro s hj
    simp [ProcessamentoMetricas.extrai_metricas, hj]
  · intro raw hraw
    cases raw with
    | str s => simp [notStrOrDict] at hraw
    | dict d => simp [notStrOrDict] at hraw
    | none => rfl
    | bool b => rfl
    | int n => rfl
    | float f => rfl
    | list xs => rfl
  · intro s v hj hv hk
    cases keys with
    | nil => exact absurd rfl hk
    | cons k0 ks =>
      simp only [ProcessamentoMetricas.extrai_metricas, hj, pyDictComp,
        pyGetInt_nondict v hv k0]

/-- C3 witness: the zero-fill branches of the amended theorem run on the
malformed-JSON example and on the wrong-type example of the claim. -/
theorem extrai_metricas_zero_fill_witness :
    ProcessamentoMetricas.extrai_metricas (PyVal.str ("\x7bnot valid json")) ["a", "b"]
      = Except.ok [("a", 0), ("b", 0)] ∧
    ProcessamentoMetricas.extrai_metricas (PyVal.int 42) ["a"]
      = Except.ok [("a", 0)] :=
  ⟨(extrai_metricas_zero_fill ["a", "b"]).1 ("\x7bnot valid json") (by rfl),
   (extrai_metricas_zero_fill ["a"]).2.1 (PyVal.int 42) (by rfl)⟩

/-- C5 counterexample: extraction raises — on a native mapping whose value at a
requested key is `None`, the unguarded `int(...)` coercion raises TypeError, so
extraction does not return normally. -/
theorem extrai_metricas_raises_on_noncoercible :
    ProcessamentoMetricas.extrai_metricas (PyVal.dict [("a", PyVal.none)]) ["a"]
      = Except.error PyErr.typeError :=
  rfl

/-- The condition under which the extractor returns normally: either a
zero-fill branch is taken, or every requested key of the decoded payload
carries an integer-coercible value (`v.get(k, 0)` succeeds and `int(...)`
succeeds). -/
def extractOkCond (raw : PyVal) (keys : List String) : Prop :=
  match raw with
  | PyVal.str s =>
    (match json_loads s with
     | Option.some v => ∀ k ∈ keys, exOk (pyGetInt v k) = true
     | Option.none => True)
  | PyVal.dict d => ∀ k ∈ keys, exOk (pyGetInt (PyVal.dict d) k) = true
  | _ => True

/-- C5 amended: extraction returns normally exactly when each zero-fill branch
applies or every requested key's decoded value is integer-coercible; a
non-coercible value at a requested key (or a decoded non-object payload with a
nonempty key list) makes the unguarded comprehension raise. -/
theorem extrai_metricas_isOk_iff (raw : PyVal) (keys : List String) :
    exOk (ProcessamentoMetricas.extrai_metricas raw keys) = true ↔
      extractOkCond raw keys := by
  cases raw with
  | str s =>
    cases hj : json_loads s with
    | some v =>
      simp only [ProcessamentoMetricas.extrai_metricas, hj, extractOkCond]
      exact pyDictComp_isOk v keys []
    | none =>
      simp only [ProcessamentoMetricas.extrai_metricas, hj, extractOkCond]
      simp [exOk]
  | dict d =>
    simp only [ProcessamentoMetricas.extrai_metricas, extractOkCond]
    exact pyDictComp_isOk (PyVal.dict d) keys []
  | none => simp [ProcessamentoMetricas.extrai_metricas, extractOkCond, exOk]
  | bool b => simp [ProcessamentoMetricas.extrai_metricas, extractOkCond, exOk]
  | int n => simp [ProcessamentoMetricas.extrai_metricas, extractOkCond, exOk]
  | float f => simp [ProcessamentoMetricas.extrai_metricas, extractOkCond, exOk]
  | list xs => simp [ProcessamentoMetricas.extrai_metricas, extractOkCond, exOk]

/-- C7: on a native mapping whose requested values are all integer-coercible,
extraction uses the mapping directly — it returns normally and the value at
each requested key is `int(d.get(k, 0))`: the coerced stored value, or the
coercion of the default `0` when the key is absent. -/
theorem extrai_metricas_native_dict (d : List (String × PyVal)) (keys : List String)
    (h : ∀ k ∈ keys, exOk (pyGetInt (PyVal.dict d) k) = true) :
    ∃ m : List (String × Int),
      ProcessamentoMetricas.extrai_metricas (PyVal.dict d) keys = Except.ok m ∧
      ∀ (k : String) (n : Int), k ∈ keys →
        pyGetInt (PyVal.dict d) k = Except.ok n → dictGet m k = Option.some n := by
  have hok : exOk (pyDictComp (PyVal.dict d) keys []) = true :=
    (pyDictComp_isOk (PyVal.dict d) keys []).mpr h
  obtain ⟨m, hm⟩ := exOk_exists _ hok
  refine ⟨m, hm, ?_⟩
  intro k n hk hg
  obtain ⟨n2, hg2, hget⟩ := (pyDictComp_lookup (PyVal.dict d) keys [] m hm k).1 hk
  rw [hg] at hg2
  cases hg2
  exact hget

/-- C7 witness: the example of the claim — a stored int, a numeric string, and
an absent key — evaluated directly and through the theorem. -/
theorem extrai_metricas_native_dict_witness :
    ProcessamentoMetricas.extrai_metricas
        (PyVal.dict [("a", PyVal.int 3), ("b", PyVal.str ("7"))]) ["a", "b", "c"]
      = Except.ok [("a", 3), ("b", 7), ("c", 0)] ∧
    (∃ m : List (String × Int),
      ProcessamentoMetricas.extrai_metricas
          (PyVal.dict [("a", PyVal.int 3), ("b", PyVal.str ("7"))]) ["a", "b", "c"]
        = Except.ok m ∧
      ∀ (k : String) (n : Int), k ∈ ["a", "b", "c"] →
        pyGetInt (PyVal.dict [("a", PyVal.int 3), ("b", PyVal.str ("7"))]) k = Except.ok n →
        dictGet m k = Option.some n) :=
  ⟨rfl,
   extrai_metricas_native_dict [("a", PyVal.int 3), ("b", PyVal.str ("7"))]
     ["a", "b", "c"] (by decide)⟩

/-- C9 counterexample: a negative stored count passes through the `int(...)`
coercion unchanged, so the returned mapping can hold a negative value. -/
theorem extrai_metricas_negative_value :
    ProcessamentoMetricas.extrai_metricas (PyVal.dict [("a", PyVal.int (-3))]) ["a"]
      = Except.ok [("a", -3)] ∧ ((-3 : Int) < 0) :=
  ⟨rfl, by decide⟩

/-- The value the extractor would coerce for key `k`: the decoded payload's
entry at `k`, when the payload decodes to a mapping. -/
def payloadLookup (raw : PyVal) (k : String) : Option PyVal :=
  match raw with
  | PyVal.str s =>
    (match json_loads s with
     | Option.some (PyVal.dict d) => dictGet d k
     | _ => Option.none)
  | PyVal.dict d => dictGet d k
  | _ => Option.none

/-- Check that every requested key of the decoded payload coerces to a
non-negative integer (keys that are absent, or whose coercion fails anyway,
impose nothing). -/
def nonnegSource (raw : PyVal) (keys : List String) : Bool :=
  keys.all (fun k =>
    match payloadLookup raw k with
    | Option.some w =>
      (match pyInt w with
       | Except.ok n => decide (0 ≤ n)
       | Except.error _ => true)
    | Option.none => true)

lemma pyGetInt_dict_cases (d : List (String × PyVal)) (k : String) (n : Int)
    (h : pyGetInt (PyVal.dict d) k = Except.ok n) :
    (∃ w : PyVal, dictGet d k = Option.some w ∧ pyInt w = Except.ok n) ∨
    (dictGet d k = Option.none ∧ n = 0) := by
  simp only [pyGetInt, pyGet, dictGetD] at h
  cases hg : dictGet d k with
  | some w =>
    rw [hg] at h
    exact Or.inl ⟨w, rfl, h⟩
  | none =>
    rw [hg] at h
    simp only [Option.getD] at h
    simp only [pyInt, Except.ok.injEq] at h
    exact Or.inr ⟨rfl, h.symm⟩

/-- C9 amended: values of the returned mapping are non-negative whenever every
requested value of the decoded payload coerces to a non-negative integer (the
zero-fill branches and absent keys contribute the non-negative default `0`);
without that premise a negative payload count passes through unchanged. -/
theorem extrai_metricas_nonneg (raw : PyVal) (keys : List String)
    (m : List (String × Int))
    (h : ProcessamentoMetricas.extrai_metricas raw keys = Except.ok m)
    (hsrc : nonnegSource raw keys = true) :
    ∀ p ∈ m, 0 ≤ p.2 := by
  have hall := List.all_eq_true.mp hsrc
  have hdict : ∀ (dd : List (String × PyVal)),
      (∀ k ∈ keys, payloadLookup raw k = dictGet dd k) →
      pyDictComp (PyVal.dict dd) keys [] = Except.ok m → ∀ p ∈ m, 0 ≤ p.2 := by
    intro dd hpl hcomp p hp
    rcases pyDictComp_mem (PyVal.dict dd) keys [] m hcomp p hp with h2 | h2
    · exact absurd h2 (by simp)
    · have hkmem : p.1 ∈ keys := by
        have := hasKey_of_mem m p hp
        exact ((pyDictComp_hasKey (PyVal.dict dd) keys [] m hcomp p.1).mp this).resolve_left
          (by simp [hasKey, dictGet])
      rcases pyGetInt_dict_cases dd p.1 p.2 h2 with ⟨w, hw, hcoerce⟩ | ⟨_, hzero⟩
      · have hk := hall p.1 hkmem
        rw [hpl p.1 hkmem, hw] at hk
        simp only [hcoerce] at hk
        exact of_decide_eq_true hk
      · rw [hzero]
  cases raw with
  | str s =>
    cases hj : json_loads s with
    | some v =>
      simp only [ProcessamentoMetricas.extrai_metricas, hj] at h
      cases v with
      | dict dd =>
        exact hdict dd (fun k _ => by simp [payloadLookup, hj]) h
      | none =>
        intro p hp
        rcases pyDictComp_mem _ keys [] m h p hp with h2 | h2
        · exact absurd h2 (by simp)
        · rw [pyGetInt_nondict _ (by rfl) _] at h2
          exact absurd h2 (by simp)
      | bool b =>
        intro p hp
        rcases pyDictComp_mem _ keys [] m h p hp with h2 | h2
        · exact absurd h2 (by simp)
        · rw [pyGetInt_nondict _ (by rfl) _] at h2
          exact absurd h2 (by simp)
      | int n =>
        intro p hp
        rcases pyDictComp_mem _ keys [] m h p hp with h2 | h2
        · exact absurd h2 (by simp)
        · rw [pyGetInt_nondict _ (by rfl) _] at h2
          exact absurd h2 (by simp)
      | float f =>
        intro p hp
        rcases pyDictComp_mem _ keys [] m h p hp with h2 | h2
        · exact absurd h2 (by simp)
        · rw [pyGetInt_nondict _ (by rfl) _] at h2
          exact absurd h2 (by simp)
      | str s2 =>
        intro p hp
        rcases pyDictComp_mem _ keys [] m h p hp with h2 | h2
        · exact absurd h2 (by simp)
        · rw [pyGetInt_nondict _ (by rfl) _] at h2
          exact absurd h2 (by simp)
      | list xs =>
        intro p hp
        rcases pyDictComp_mem _ keys [] m h p hp with h2 | h2
        · exact absurd h2 (by simp)
        · rw [pyGetInt_nondict _ (by rfl) _] at h2
          exact absurd h2 (by simp)
    | none =>
      simp only [ProcessamentoMetricas.extrai_metricas, hj, Except.ok.injEq] at h
      subst h
      intro p hp
      rcases zeroFill_mem keys [] p hp with h2 | h2
      · exact absurd h2 (by simp)
      · rw [h2]
  | dict dd =>
    simp only [ProcessamentoMetricas.extrai_metricas] at h
    exact hdict dd (fun k _ => rfl) h
  | none =>
    simp only [ProcessamentoMetricas.extrai_metricas, Except.ok.injEq] at h
    subst h
    intro p hp
    rcases zeroFill_mem keys [] p hp with h2 | h2
    · exact absurd h2 (by simp)
    · rw [h2]
  | bool b =>
    simp only [ProcessamentoMetricas.extrai_metricas, Except.ok.injEq] at h
    subst h
    intro p hp
    rcases zeroFill_mem keys [] p hp with h2 | h2
    · exact absurd h2 (by simp)
    · rw [h2]
  | int n =>
    simp only [ProcessamentoMetricas.extrai_metricas, Except.ok.injEq] at h
    subst h
    intro p hp
    rcases zeroFill_mem keys [] p hp with h2 | h2
    · exact absurd h2 (by simp)
    · rw [h2]
  | float f =>
    simp only [ProcessamentoMetricas.extrai_metricas, Except.ok.injEq] at h
    subst h
    intro p hp
    rcases zeroFill_mem keys [] p hp with h2 | h2
    · exact absurd h2 (by simp)
    · rw [h2]
  | list xs =>
    simp only [ProcessamentoMetricas.extrai_metricas, Except.ok.injEq] at h
    subst h
    intro p hp
    rcases zeroFill_mem keys [] p hp with h2 | h2
    · exact absurd h2 (by simp)
    · rw [h2]

/-- C9 witness: the non-negativity theorem run on a concrete dict with
non-negative stored counts and one absent key. -/
theorem extrai_metricas_nonneg_witness :
    (0 : Int) ≤ (3 : Int) ∧ (0 : Int) ≤ (0 : Int) :=
  ⟨extrai_metricas_nonneg (PyVal.dict [("a", PyVal.int 3)]) ["a", "b"]
      [("a", 3), ("b", 0)] (by rfl) (by rfl) ("a", 3) (by decide),
   extrai_metricas_nonneg (PyVal.dict [("a", PyVal.int 3)]) ["a", "b"]
      [("a", 3), ("b", 0)] (by rfl) (by rfl) ("b", 0) (by decide)⟩

/-- C10: the four copies of the metric extractor are extensionally equal — on
every input they all return the same mapping or raise the same exception.  (In
the sources the four function bodies are verbatim identical.) -/
theorem extract_metrics_copies_agree (dados : PyVal) (keys : List String) :
    ProcessamentoMetricas.extrai_metricas dados keys
      = ProcessamentoMetricasPorMonitoramento.extrai_metricas dados keys ∧
    ProcessamentoMetricas.extrai_metricas dados keys
      = DataProces.MetricsProcessor.extract_metrics dados keys ∧
    ProcessamentoMetricas.extrai_metricas dados keys
      = DataProcess.MetricsProcessor.extract_metrics dados keys :=
  ⟨rfl, rfl, rfl⟩

lemma extrai_keyList (raw : PyVal) (keys : List String) (m : List (String × Int))
    (hnd : keys.Nodup)
    (h : ProcessamentoMetricas.extrai_metricas raw keys = Except.ok m) :
    m.map Prod.fst = keys := by
  have hz : (zeroFill keys []).map Prod.fst = keys := by
    rw [zeroFill_eq_append keys hnd [] (fun k _ => rfl)]
    simp only [List.nil_append, List.map_map]
    have hid : (Prod.fst ∘ fun k : String => (k, (0 : Int))) = id := rfl
    rw [hid, List.map_id]
  have hcomp : ∀ v : PyVal, pyDictComp v keys [] = Except.ok m → m.map Prod.fst = keys := by
    intro v hc
    have := pyDictComp_keyList v keys hnd [] m (fun k _ => rfl) hc
    simpa using this
  cases raw with
  | str s =>
    cases hj : json_loads s with
    | some v =>
      simp only [ProcessamentoMetricas.extrai_metricas, hj] at h
      exact hcomp v h
    | none =>
      simp only [ProcessamentoMetricas.extrai_metricas, hj, Except.ok.injEq] at h
      subst h
      exact hz
  | dict d =>
    simp only [ProcessamentoMetricas.extrai_metricas] at h
    exact hcomp _ h
  | none =>
    simp only [ProcessamentoMetricas.extrai_metricas, Except.ok.injEq] at h
    subst h
    exact hz
  | bool b =>
    simp only [ProcessamentoMetricas.extrai_metricas, Except.ok.injEq] at h
    subst h
    exact hz
  | int n =>
    simp only [ProcessamentoMetricas.extrai_metricas, Except.ok.injEq] at h
    subst h
    exact hz
  | float f =>
    simp only [ProcessamentoMetricas.extrai_metricas, Except.ok.injEq] at h
    subst h
    exact hz
  | list xs =>
    simp only [ProcessamentoMetricas.extrai_metricas, Except.ok.injEq] at h
    subst h
    exact hz

lemma buildCols_eq (m : List (String × Int)) (ks : List String) (hnd : ks.Nodup) :
    ∀ d : List (String × Int), (∀ k ∈ ks, hasKey d k = false) →
    buildCols m ks d = d ++ ks.map (fun k => (k, dictGetD m k 0)) := by
  induction ks with
  | nil => intro d _; simp [buildCols]
  | cons k0 ks ih =>
    intro d hdisj
    simp only [List.nodup_cons] at hnd
    have h0 : hasKey d k0 = false := hdisj k0 (List.mem_cons_self _ _)
    have step : dictInsert d k0 (dictGetD m k0 0) = d ++ [(k0, dictGetD m k0 0)] :=
      dictInsert_of_not_hasKey _ _ _ h0
    have hdisj2 : ∀ k ∈ ks, hasKey (d ++ [(k0, dictGetD m k0 0)]) k = false := by
      intro k hk
      have hne : ¬ k0 = k := fun h2 => hnd.1 (h2 ▸ hk)
      rw [hasKey_append, hdisj k (List.mem_cons_of_mem _ hk)]
      simp [hasKey, dictGet, hne]
    rw [buildCols, step, ih hnd.2 (d ++ [(k0, dictGetD m k0 0)]) hdisj2]
    simp

lemma dictGet_mapped (g : String → Int) :
    ∀ (ks : List String) (k : String), k ∈ ks →
    dictGet (ks.map (fun k2 => (k2, g k2))) k = Option.some (g k) := by
  intro ks
  induction ks with
  | nil => intro k hk; exact absurd hk (by simp)
  | cons k0 ks ih =>
    intro k hk
    by_cases h0 : k0 = k
    · subst h0
      simp [dictGet]
    · rcases List.mem_cons.mp hk with h1 | h1
      · exact absurd h1.symm h0
      · simpa [dictGet, h0] using ih k h1

lemma map_snd_eq (m : List (String × Int)) :
    ∀ ks : List String, m.map Prod.fst = ks → ks.Nodup →
    m.map Prod.snd = ks.map (fun k => dictGetD m k 0) := by
  induction m with
  | nil =>
    intro ks h _
    rw [← h]
    rfl
  | cons p m ih =>
    intro ks h hnd
    obtain ⟨k0, v0⟩ := p
    cases ks with
    | nil => simp at h
    | cons k1 ks1 =>
      simp only [List.map_cons, List.cons.injEq] at h
      obtain ⟨hk01, hm⟩ := h
      subst hk01
      simp only [List.nodup_cons] at hnd
      have head : dictGetD ((k0, v0) :: m) k0 0 = v0 := by simp [dictGetD, dictGet]
      have tail : ks1.map (fun k => dictGetD ((k0, v0) :: m) k 0)
          = ks1.map (fun k => dictGetD m k 0) := by
        apply List.map_congr_left
        intro k hk
        have hne : ¬ k0 = k := fun h2 => hnd.1 (h2 ▸ hk)
        simp [dictGetD, dictGet, hne]
      simp only [List.map_cons, head, tail]
      rw [ih ks1 hm hnd.2]

lemma rowTotal_mapped (g : String → Int) (keys : List String) :
    rowTotal (keys.map (fun k => (k, g k))) keys = (keys.map g).sum := by
  unfold rowTotal
  apply congrArg List.sum
  apply List.map_congr_left
  intro k hk
  simp [dictGetD, dictGet_mapped g keys k hk]

lemma rowTotal_buildCols (m : List (String × Int)) (keys : List String)
    (hnd : keys.Nodup) (hkeys : m.map Prod.fst = keys) :
    rowTotal (buildCols m keys []) keys = (m.map Prod.snd).sum := by
  rw [buildCols_eq m keys hnd [] (fun k _ => rfl)]
  simp only [List.nil_append]
  rw [rowTotal_mapped (fun k => dictGetD m k 0) keys]
  rw [map_snd_eq m keys hkeys hnd]

lemma hasKey_of_mem_fst (m : List (String × Int)) (k : String)
    (h : k ∈ m.map Prod.fst) : hasKey m k = true := by
  obtain ⟨p, hp, hpk⟩ := List.mem_map.mp h
  have := hasKey_of_mem m p hp
  rw [hpk] at this
  exact this

lemma colsPS_eq (raw : PyVal) (keys : List String) (m : List (String × Int))
    (hm : DataProcess.MetricsProcessor.extract_metrics raw keys = Except.ok m) :
    ∀ (ks : List String) (d : List (String × Int)), (∀ k ∈ ks, hasKey m k = true) →
    DataProcess.MetricsProcessor.colsPS raw keys ks d = Except.ok (buildCols m ks d) := by
  intro ks
  induction ks with
  | nil => intro d _; rfl
  | cons k0 ks ih =>
    intro d hk
    have hsome := hk k0 (List.mem_cons_self _ _)
    rw [hasKey] at hsome
    obtain ⟨v, hv⟩ := Option.isSome_iff_exists.mp hsome
    have hvD : dictGetD m k0 0 = v := by simp [dictGetD, hv]
    simp only [DataProcess.MetricsProcessor.colsPS, hm, hv]
    rw [ih (dictInsert d k0 v) (fun k hk2 => hk k (List.mem_cons_of_mem _ hk2))]
    rw [buildCols, hvD]

lemma extrai_metricas_nil (raw : PyVal) :
    ProcessamentoMetricas.extrai_metricas raw [] = Except.ok [] := by
  cases raw with
  | str s =>
    cases hj : json_loads s with
    | some v => simp only [ProcessamentoMetricas.extrai_metricas, hj]; rfl
    | none => simp only [ProcessamentoMetricas.extrai_metricas, hj]; rfl
  | dict d => rfl
  | none => rfl
  | bool b => rfl
  | int n => rfl
  | float f => rfl
  | list xs => rfl

/-- C6 amended: for a duplicate-free key list, on every row that the
per-service aggregation returns — in both the `calcula_interacoes` and the
`process_service` implementation — the `interacoes_calculadas` column equals
the sum of the values of the extracted metric mapping of that row; with a
repeated key the column sum counts the repeated column once per occurrence and
the equality fails. -/
theorem calcula_interacoes_total (df : List SrcRow) (service : String)
    (keys : List String) (rows : List OutRow) (hnd : keys.Nodup) :
    (ProcessamentoMetricas.calcula_interacoes df service keys = Except.ok rows →
      ∀ r ∈ rows, ∃ m : List (String × Int),
        ProcessamentoMetricas.extrai_metricas r.manifestacoes keys = Except.ok m ∧
        r.interacoes_calculadas = (m.map Prod.snd).sum) ∧
    (DataProcess.MetricsProcessor.process_service df service keys = Except.ok rows →
      ∀ r ∈ rows, ∃ m : List (String × Int),
        DataProcess.MetricsProcessor.extract_metrics r.manifestacoes keys = Except.ok m ∧
        r.interacoes_calculadas = (m.map Prod.snd).sum) := by
  constructor
  · intro h r hr
    rw [ProcessamentoMetricas.calcula_interacoes] at h
    obtain ⟨x, _, hfx⟩ :=
      exceptMapM_mem _ (df.filter (fun r2 => r2.servico == service)) rows h r hr
    cases hm : ProcessamentoMetricas.extrai_metricas x.manifestacoes keys with
    | error e =>
      simp only [hm] at hfx
      exact absurd hfx (by simp)
    | ok m =>
      simp only [hm, Except.ok.injEq] at hfx
      subst hfx
      exact ⟨m, hm, rowTotal_buildCols m keys hnd (extrai_keyList _ _ _ hnd hm)⟩
  · intro h r hr
    rw [DataProcess.MetricsProcessor.process_service] at h
    obtain ⟨x, _, hfx⟩ :=
      exceptMapM_mem _ (df.filter (fun r2 => r2.servico == service)) rows h r hr
    cases hm : DataProcess.MetricsProcessor.extract_metrics x.manifestacoes keys with
    | error e =>
      cases keys with
      | nil =>
        have : DataProcess.MetricsProcessor.extract_metrics x.manifestacoes []
            = Except.ok [] := extrai_metricas_nil x.manifestacoes
        rw [this] at hm
        exact absurd hm (by simp)
      | cons k0 ks =>
        simp only [DataProcess.MetricsProcessor.colsPS, hm] at hfx
        exact absurd hfx (by simp)
    | ok m =>
      have hkl : m.map Prod.fst = keys := extrai_keyList _ _ _ hnd hm
      have hks : ∀ k ∈ keys, hasKey m k = true := by
        intro k hk
        exact hasKey_of_mem_fst m k (by rw [hkl]; exact hk)
      have hcols := colsPS_eq x.manifestacoes keys m hm keys [] hks
      simp only [hcols, Except.ok.injEq] at hfx
      subst hfx
      exact ⟨m, hm, rowTotal_buildCols m keys hnd hkl⟩

/-- C6 counterexample: with the repeated key list `a, a` the aggregation sums
the single column `a` once per occurrence, producing 2, while the sum of the
values of the extracted mapping is 1 — the claimed equality fails for key
lists that are not duplicate-free. -/
theorem calcula_interacoes_dup_keys :
    Except.map (fun rows => rows.map (fun r => r.interacoes_calculadas))
        (ProcessamentoMetricas.calcula_interacoes
          [⟨"s", PyVal.dict [("a", PyVal.int 1)]⟩] "s" ["a", "a"])
      = Except.ok [2] ∧
    Except.map (fun m => (m.map Prod.snd).sum)
        (ProcessamentoMetricas.extrai_metricas
          (PyVal.dict [("a", PyVal.int 1)]) ["a", "a"])
      = Except.ok 1 :=
  ⟨rfl, rfl⟩

/-- C6 witness: the amended total theorem run on a one-row table with two
distinct keys: the total column carries 2 + 3 = 5, the sum of the extracted
values. -/
theorem calcula_interacoes_total_witness :
    ∃ m : List (String × Int),
      ProcessamentoMetricas.extrai_metricas
          (PyVal.dict [("a", PyVal.int 2), ("b", PyVal.int 3)]) ["a", "b"]
        = Except.ok m ∧
      (5 : Int) = (m.map Prod.snd).sum := by
  have h := (calcula_interacoes_total
      [⟨"s", PyVal.dict [("a", PyVal.int 2), ("b", PyVal.int 3)]⟩] "s" ["a", "b"]
      [⟨"s", PyVal.dict [("a", PyVal.int 2), ("b", PyVal.int 3)], [("a", 2), ("b", 3)], 5⟩]
      (by decide)).1 (by rfl)
  exact h ⟨"s", PyVal.dict [("a", PyVal.int 2), ("b", PyVal.int 3)],
    [("a", 2), ("b", 3)], 5⟩ (by simp)

namespace ComparadorMonitoramentoPoPeriodo

lemma mkMergedRow_topic (c p : SnapRow) : (mkMergedRow c p).topic = c.topic := rfl

lemma countP_calcular_diferencas (A P : List SnapRow) (t : String) :
    (calcular_diferencas A P).countP (fun r => r.topic == t)
      = A.countP (fun r => r.topic == t) * P.countP (fun r => r.topic == t) := by
  induction A with
  | nil => simp [calcular_diferencas]
  | cons c rest ih =>
    simp only [calcular_diferencas, List.countP_append, List.countP_map, ih,
      List.countP_cons]
    have hbranch :
        ((P.filter (fun p => p.topic == c.topic)).countP
          (fun p => (mkMergedRow c p).topic == t))
          = if (c.topic == t) = true then P.countP (fun p => p.topic == t) else 0 := by
      by_cases hct : (c.topic == t) = true
      · have hct2 : c.topic = t := by simpa using hct
        simp only [mkMergedRow_topic, hct, if_pos]
        rw [List.countP_true, ← List.countP_eq_length_filter, hct2]
      · simp only [mkMergedRow_topic]
        rw [if_neg hct]
        rw [List.countP_eq_zero.mpr]
        intro p _
        simpa using hct
    rw [show (fun p => (mkMergedRow c p).topic == t) = ((fun r => r.topic == t) ∘ mkMergedRow c)
      from rfl] at hbranch
    rw [hbranch]
    by_cases hct : (c.topic == t) = true
    · rw [if_pos hct, if_pos hct]
      ring
    · rw [if_neg hct, if_neg hct]
      ring

lemma countP_topic_nodup (A : List SnapRow) (t : String)
    (hnd : (A.map (fun r => r.topic)).Nodup) :
    A.countP (fun r => r.topic == t)
      = if t ∈ A.map (fun r => r.topic) then 1 else 0 := by
  induction A with
  | nil => simp
  | cons a rest ih =>
    simp only [List.map_cons, List.nodup_cons] at hnd
    rw [List.countP_cons]
    by_cases hct : (a.topic == t) = true
    · have hct2 : a.topic = t := by simpa using hct
      have hzero : rest.countP (fun r => r.topic == t) = 0 := by
        rw [List.countP_eq_zero]
        intro r hr
        intro hcontra
        apply hnd.1
        rw [hct2]
        have : r.topic = t := by simpa using hcontra
        rw [← this]
        exact List.mem_map.mpr ⟨r, hr, rfl⟩
      rw [hzero, if_pos hct]
      have : t ∈ a.topic :: rest.map (fun r => r.topic) := by
        rw [← hct2]
        exact List.mem_cons_self _ _
      simp [List.map_cons, this]
    · rw [if_neg hct, ih hnd.2]
      have hne : ¬ a.topic = t := fun h => hct (by simp [h])
      by_cases hmem : t ∈ rest.map (fun r => r.topic)
      · simp [hmem, List.mem_cons, hne]
      · have : ¬ t ∈ a.topic :: rest.map (fun r => r.topic) := by
          intro hc
          rcases List.mem_cons.mp hc with hc | hc
          · exact hne hc.symm
          · exact hmem hc
        simp [hmem, this]

lemma mem_calcular_diferencas (A P : List SnapRow) (row : MergedRow) :
    row ∈ calcular_diferencas A P ↔
      ∃ c, c ∈ A ∧ ∃ p, p ∈ P ∧ p.topic = c.topic ∧ row = mkMergedRow c p := by
  induction A with
  | nil => simp [calcular_diferencas]
  | cons c0 rest ih =>
    simp only [calcular_diferencas, List.mem_append, List.mem_map, List.mem_filter,
      ih, List.mem_cons]
    constructor
    · rintro (⟨p, ⟨hp, htop⟩, heq⟩ | ⟨c, hc, p, hp, htop, heq⟩)
      · exact ⟨c0, Or.inl rfl, p, hp, by simpa using htop, heq.symm⟩
      · exact ⟨c, Or.inr hc, p, hp, htop, heq⟩
    · rintro ⟨c, hc | hc, p, hp, htop, heq⟩
      · subst hc
        exact Or.inl ⟨p, ⟨hp, by simpa using htop⟩, heq.symm⟩
      · exact Or.inr ⟨c, hc, p, hp, htop, heq⟩

lemma mul100_floatDivZ_zero (a : Int) :
    (a ≠ 0 → mul100 (floatDivZ a 0) = PyFloat.inf ∨ mul100 (floatDivZ a 0) = PyFloat.negInf) ∧
    (a = 0 → mul100 (floatDivZ a 0) = PyFloat.nan) := by
  constructor
  · intro ha
    rcases lt_trichotomy a 0 with h | h | h
    · right
      have h2 : ¬ (0 : Int) < a := not_lt.mpr h.le
      simp [floatDivZ, mul100, h, h2]
    · exact absurd h ha
    · left
      simp [floatDivZ, mul100, h]
  · intro ha
    subst ha
    simp [floatDivZ, mul100]

end ComparadorMonitoramentoPoPeriodo

namespace ComparadorMonitoramentoPoPeriodo

/-- C1: on snapshots keyed by topic (no repeated topic within an input),
`calcular_diferencas` produces exactly one row per topic present in both
inputs and none for any other topic, and on every produced row the difference
columns are current minus previous and the percentage columns are
`diff / previous * 100` of the respective counts; on the example pair the
single row carries `diff_ocorrencias = 20`, `perc_ocorrencias = 20`,
`diff_interacoes = 100`, `perc_interacoes = 25`. -/
theorem calcular_diferencas_inner_join :
    (∀ A P : List SnapRow,
      (A.map (fun r => r.topic)).Nodup → (P.map (fun r => r.topic)).Nodup →
      (∀ t : String,
        (calcular_diferencas A P).countP (fun r => r.topic == t)
          = if t ∈ A.map (fun r => r.topic) ∧ t ∈ P.map (fun r => r.topic)
            then 1 else 0) ∧
      (∀ row ∈ calcular_diferencas A P,
        row.diffOcc = row.occAtual - row.occAnterior ∧
        row.diffInter = row.interAtual - row.interAnterior ∧
        row.percOcc = mul100 (floatDivZ row.diffOcc row.occAnterior) ∧
        row.percInter = mul100 (floatDivZ row.diffInter row.interAnterior) ∧
        ∃ c, c ∈ A ∧ ∃ p, p ∈ P ∧ c.topic = row.topic ∧ p.topic = row.topic ∧
          row.occAtual = c.occ ∧ row.occAnterior = p.occ ∧
          row.interAtual = c.inter ∧ row.interAnterior = p.inter)) ∧
    calcular_diferencas [⟨"T1", 120, 500⟩] [⟨"T1", 100, 400⟩]
      = [⟨"T1", 120, 100, 500, 400, 20, 100, PyFloat.rat 20, PyFloat.rat 25⟩] := by
  constructor
  · intro A P hA hP
    constructor
    · intro t
      rw [countP_calcular_diferencas, countP_topic_nodup A t hA, countP_topic_nodup P t hP]
      by_cases hAt : t ∈ A.map (fun r => r.topic) <;>
        by_cases hPt : t ∈ P.map (fun r => r.topic) <;>
        simp [hAt, hPt]
    · intro row hrow
      obtain ⟨c, hc, p, hp, htop, heq⟩ := (mem_calcular_diferencas A P row).mp hrow
      subst heq
      refine ⟨rfl, rfl, rfl, rfl, c, hc, p, hp, rfl, htop, rfl, rfl, rfl, rfl⟩
  · show [mkMergedRow ⟨"T1", 120, 500⟩ ⟨"T1", 100, 400⟩]
      = [⟨"T1", 120, 100, 500, 400, 20, 100, PyFloat.rat 20, PyFloat.rat 25⟩]
    simp only [mkMergedRow, floatDivZ, mul100]
    norm_num

/-- C1 witness: the join-cardinality part of the theorem evaluated on the
example pair at topic `T1`. -/
theorem calcular_diferencas_inner_join_witness :
    (calcular_diferencas [⟨"T1", 120, 500⟩] [⟨"T1", 100, 400⟩]).countP
        (fun r => r.topic == "T1")
      = if "T1" ∈ ([⟨"T1", 120, 500⟩] : List SnapRow).map (fun r => r.topic) ∧
           "T1" ∈ ([⟨"T1", 100, 400⟩] : List SnapRow).map (fun r => r.topic)
        then 1 else 0 :=
  ((calcular_diferencas_inner_join.1 [⟨"T1", 120, 500⟩] [⟨"T1", 100, 400⟩]
    (by decide) (by decide)).1 "T1")

/-- C8: the percentage computation is not guarded against a zero
previous-period count — the joined row is still produced (the model comparator
is total), and on any produced row with previous count zero the percentage is
positive or negative infinity when the difference is non-zero, and NaN when
the current count is also zero, per the numpy float convention. -/
theorem calcular_diferencas_div_zero (A P : List SnapRow) (row : MergedRow)
    (hrow : row ∈ calcular_diferencas A P) :
    (row.occAnterior = 0 →
      (row.diffOcc ≠ 0 → row.percOcc = PyFloat.inf ∨ row.percOcc = PyFloat.negInf) ∧
      (row.occAtual = 0 → row.percOcc = PyFloat.nan)) ∧
    (row.interAnterior = 0 →
      (row.diffInter ≠ 0 → row.percInter = PyFloat.inf ∨ row.percInter = PyFloat.negInf) ∧
      (row.interAtual = 0 → row.percInter = PyFloat.nan)) := by
  obtain ⟨c, _, p, _, _, heq⟩ := (mem_calcular_diferencas A P row).mp hrow
  subst heq
  constructor
  · intro hz
    have hz2 : p.occ = 0 := hz
    constructor
    · intro hd
      have := (mul100_floatDivZ_zero (c.occ - p.occ)).1 hd
      rw [← hz2] at this
      exact this
    · intro hc0
      have hc02 : c.occ = 0 := hc0
      have hd : c.occ - p.occ = 0 := by rw [hc02, hz2]; ring
      have := (mul100_floatDivZ_zero (c.occ - p.occ)).2 hd
      rw [← hz2] at this
      exact this
  · intro hz
    have hz2 : p.inter = 0 := hz
    constructor
    · intro hd
      have := (mul100_floatDivZ_zero (c.inter - p.inter)).1 hd
      rw [← hz2] at this
      exact this
    · intro hc0
      have hc02 : c.inter = 0 := hc0
      have hd : c.inter - p.inter = 0 := by rw [hc02, hz2]; ring
      have := (mul100_floatDivZ_zero (c.inter - p.inter)).2 hd
      rw [← hz2] at this
      exact this

/-- C8 witness: the division-by-zero theorem run on a one-topic pair whose
previous-period counts are zero: the occurrences percentage is one of the two
infinities (the difference 5 is non-zero). -/
theorem calcular_diferencas_div_zero_witness :
    (mkMergedRow ⟨"T", 5, 7⟩ ⟨"T", 0, 0⟩).percOcc = PyFloat.inf ∨
    (mkMergedRow ⟨"T", 5, 7⟩ ⟨"T", 0, 0⟩).percOcc = PyFloat.negInf := by
  have hmem : mkMergedRow ⟨"T", 5, 7⟩ ⟨"T", 0, 0⟩
      ∈ calcular_diferencas [⟨"T", 5, 7⟩] [⟨"T", 0, 0⟩] := by
    rw [show calcular_diferencas [⟨"T", 5, 7⟩] [⟨"T", 0, 0⟩]
        = [mkMergedRow ⟨"T", 5, 7⟩ ⟨"T", 0, 0⟩] from rfl]
    exact List.mem_singleton.mpr rfl
  have h := calcular_diferencas_div_zero [⟨"T", 5, 7⟩] [⟨"T", 0, 0⟩]
    (mkMergedRow ⟨"T", 5, 7⟩ ⟨"T", 0, 0⟩) hmem
  exact (h.1 rfl).1 (by decide)

end ComparadorMonitoramentoPoPeriodo

namespace ComparadorMonitoramentoPoPeriodo

lemma filter_map_topic (f : MergedRow → LongRow)
    (hf : ∀ x : MergedRow, (f x).topic = x.topic) (m : List MergedRow) (t : String) :
    (m.map f).filter (fun x => x.topic == t)
      = (m.filter (fun x => x.topic == t)).map f := by
  induction m with
  | nil => rfl
  | cons a l ih =>
    simp only [List.map_cons, List.filter_cons, hf a]
    by_cases h : (a.topic == t) = true
    · rw [if_pos h, if_pos h, List.map_cons, ih]
    · rw [if_neg h, if_neg h, ih]

lemma filter_topic_singleton (m : List MergedRow) (r : MergedRow)
    (hnd : (m.map (fun x => x.topic)).Nodup) (hr : r ∈ m) :
    m.filter (fun x => x.topic == r.topic) = [r] := by
  induction m with
  | nil => exact absurd hr (by simp)
  | cons a rest ih =>
    simp only [List.map_cons, List.nodup_cons] at hnd
    rcases List.mem_cons.mp hr with hra | hrr
    · subst hra
      have hrest : rest.filter (fun x => x.topic == r.topic) = [] := by
        rw [List.filter_eq_nil_iff]
        intro x hx
        intro hxe
        apply hnd.1
        have : x.topic = r.topic := by simpa using hxe
        rw [← this]
        exact List.mem_map.mpr ⟨x, hx, rfl⟩
      rw [List.filter_cons, if_pos (by simp), hrest]
    · have hne : ¬ (a.topic == r.topic) = true := by
        intro hae
        apply hnd.1
        have : a.topic = r.topic := by simpa using hae
        rw [this]
        exact List.mem_map.mpr ⟨r, hrr, rfl⟩
      rw [List.filter_cons, if_neg hne]
      exact ih hnd.2 hrr

/-- C4: for a comparison table of N topics the two long-form tables each have
exactly 2N rows, and with topics keyed (no repeats) each topic contributes
exactly two rows — one labelled `Atual` carrying the current-period value and
one labelled `Anterior` carrying the previous-period value — both duplicating
the topic's difference and percentage columns; on the pipeline example the
`Atual` occurrences row carries 120 and the `Anterior` row carries 100. -/
theorem preparar_longos_shape :
    (∀ m : List MergedRow,
      (preparar_longos_occ m).length = 2 * m.length ∧
      (preparar_longos_int m).length = 2 * m.length ∧
      ((m.map (fun r => r.topic)).Nodup → ∀ r ∈ m,
        (preparar_longos_occ m).filter (fun x => x.topic == r.topic)
          = [⟨r.topic, r.diffOcc, r.percOcc, "Atual", r.occAtual⟩,
             ⟨r.topic, r.diffOcc, r.percOcc, "Anterior", r.occAnterior⟩] ∧
        (preparar_longos_int m).filter (fun x => x.topic == r.topic)
          = [⟨r.topic, r.diffInter, r.percInter, "Atual", r.interAtual⟩,
             ⟨r.topic, r.diffInter, r.percInter, "Anterior", r.interAnterior⟩])) ∧
    preparar_longos_occ (calcular_diferencas [⟨"T1", 120, 500⟩] [⟨"T1", 100, 400⟩])
      = [⟨"T1", 20, PyFloat.rat 20, "Atual", 120⟩,
         ⟨"T1", 20, PyFloat.rat 20, "Anterior", 100⟩] := by
  constructor
  · intro m
    refine ⟨?_, ?_, ?_⟩
    · simp only [preparar_longos_occ, List.length_append, List.length_map]
      ring
    · simp only [preparar_longos_int, List.length_append, List.length_map]
      ring
    · intro hnd r hr
      constructor
      · rw [preparar_longos_occ, List.filter_append,
          filter_map_topic _ (fun x => rfl) m r.topic,
          filter_map_topic _ (fun x => rfl) m r.topic,
          filter_topic_singleton m r hnd hr]
        rfl
      · rw [preparar_longos_int, List.filter_append,
          filter_map_topic _ (fun x => rfl) m r.topic,
          filter_map_topic _ (fun x => rfl) m r.topic,
          filter_topic_singleton m r hnd hr]
        rfl
  · show preparar_longos_occ [mkMergedRow ⟨"T1", 120, 500⟩ ⟨"T1", 100, 400⟩]
      = [⟨"T1", 20, PyFloat.rat 20, "Atual", 120⟩,
         ⟨"T1", 20, PyFloat.rat 20, "Anterior", 100⟩]
    simp only [preparar_longos_occ, mkMergedRow, floatDivZ, mul100, List.map_cons,
      List.map_nil, List.cons_append, List.nil_append]
    norm_num

/-- C4 witness: the two-rows-per-topic part of the theorem evaluated on a
one-row comparison table. -/
theorem preparar_longos_shape_witness :
    (preparar_longos_occ
        [⟨"T1", 120, 100, 500, 400, 20, 100, PyFloat.rat 20, PyFloat.rat 25⟩]).filter
        (fun x => x.topic == "T1")
      = [⟨"T1", 20, PyFloat.rat 20, "Atual", 120⟩,
         ⟨"T1", 20, PyFloat.rat 20, "Anterior", 100⟩] ∧
    (preparar_longos_int
        [⟨"T1", 120, 100, 500, 400, 20, 100, PyFloat.rat 20, PyFloat.rat 25⟩]).filter
        (fun x => x.topic == "T1")
      = [⟨"T1", 100, PyFloat.rat 25, "Atual", 500⟩,
         ⟨"T1", 100, PyFloat.rat 25, "Anterior", 400⟩] :=
  (preparar_longos_shape.1
    [⟨"T1", 120, 100, 500, 400, 20, 100, PyFloat.rat 20, PyFloat.rat 25⟩]).2.2
    (by simp)
    ⟨"T1", 120, 100, 500, 400, 20, 100, PyFloat.rat 20, PyFloat.rat 25⟩
    (List.mem_singleton.mpr rfl)

end ComparadorMonitoramentoPoPeriodo
